import Mathlib

/-! Look-up and references dialogs of the SuperCollider IDE.

A shallow embedding of `editors/sc-ide/widgets/lookup_dialog.cpp`: the query
resolution of `LookupDialog::performQuery` (exact class listing, exact method
listing, partial fallback), the re-query of `LookupDialog::onAccepted`, and the
decoding of a references response in `ReferencesDialog::parse`.

The introspection index, the Qt item model and the YAML document tree are
collaborators of that file.  The index is a record of its read functions, the
item model is the list of its rows, and the YAML document is a tree of scalars
and sequences.
-/

namespace ScLanguage

/-- Modelled from the spec: the `definition` member of a class or a method
(declared in `sc_introspection.hpp`, which is not part of the sources at hand):
the path of the defining file and the character position in it. -/
structure Definition where
  path : String
  position : Int
deriving DecidableEq, Repr

/-- Modelled from the spec: a `Method` of `sc_introspection.hpp`.  The field
`signature` is the value of `signature(Method::SignatureWithoutArguments)`, the
only signature the dialog reads. -/
structure Method where
  signature : String
  definition : Definition
deriving DecidableEq, Repr

/-- Modelled from the spec: the class-side counterpart reached through
`klass->metaClass`; the dialog reads its `methods` and nothing else. -/
structure MetaClass where
  methods : List Method
deriving DecidableEq, Repr

/-- Modelled from the spec: a `Class` of `sc_introspection.hpp`.  `superClass` is
the parent class or `none` for the root, so that a superclass chain is finite by
construction. -/
inductive Class where
  | mk (name : String) (definition : Definition) (metaClass : MetaClass)
      (methods : List Method) (superClass : Option Class)

namespace Class

/-- The member `name`. -/
def name : Class → String
  | mk n _ _ _ _ => n

/-- The member `definition`. -/
def definition : Class → Definition
  | mk _ d _ _ _ => d

/-- The member `metaClass`. -/
def metaClass : Class → MetaClass
  | mk _ _ m _ _ => m

/-- The member `methods` (instance methods, in declared order). -/
def methods : Class → List Method
  | mk _ _ _ ms _ => ms

/-- The member `superClass`. -/
def superClass : Class → Option Class
  | mk _ _ _ _ s => s

end Class

/-- Modelled from the spec: the read interface of `Introspection`
(`sc_introspection.hpp`).  `methodMap` is the multimap from method names to
methods, listed in iteration order. -/
structure Introspection where
  introspectionAvailable : Bool
  findClass : String → Option Class
  methodMap : List (String × Method)
  findClassPartial : String → List Class
  findMethodPartial : String → List Method
  compactLibraryPath : String → String

/-- The range `methods.equal_range(name)` of a multimap: the entries whose key is
`name`, in iteration order. -/
def equal_range (methods : List (String × Method)) (name : String) : List Method :=
  (methods.filter (fun entry => decide (entry.1 = name))).map Prod.snd

/-- Modelled from the spec: `ScLanguage::makeFullMethodName` of
`sc_introspection.hpp`: the class name, a dot and the method name, or the bare
method name when the class name is empty. -/
def makeFullMethodName (className methodName : String) : String :=
  if className = "" then methodName else className ++ "." ++ methodName

end ScLanguage

namespace QString

/-- The UTF-16 code units of one character. -/
def utf16 (c : Char) : List Nat :=
  if c.toNat < 0x10000 then [c.toNat]
  else [0xD800 + (c.toNat - 0x10000) / 0x400, 0xDC00 + (c.toNat - 0x10000) % 0x400]

/-- The code units a `QString` stores (`QString::unicode()`). -/
def unicode (s : String) : List Nat :=
  s.data.flatMap utf16

/-- The code unit `s[0]`; the caller has checked that `s` is not empty. -/
def first (s : String) : Nat :=
  (unicode s).headD 0

/-- The test `compare(a, b) <= 0` of the case-sensitive `QString::compare`, which
orders strings lexicographically by the numeric values of their code units. -/
def lessOrEqual (a b : String) : Prop :=
  unicode a ≤ unicode b

instance (a b : String) : Decidable (lessOrEqual a b) :=
  inferInstanceAs (Decidable (unicode a ≤ unicode b))

end QString

namespace YAML

/-- Modelled from the spec: a node of the document that the yaml-cpp parser (not
part of the sources at hand) hands to the caller.  The response is built from
sequences and scalars; a scalar carries its text. -/
inductive Node where
  | Scalar (text : String)
  | Sequence (items : List Node)

/-- Modelled from the spec: the ways in which reading a response fails: the
serialization does not parse, the document fails the assertion on its shape, or
an access into the document tree throws. -/
inductive Failure where
  | ParserException
  | AssertionFailed
  | BadDereference
  | KeyNotFound
  | InvalidScalar
deriving DecidableEq, Repr

/-- Modelled from the spec: the two services of the yaml-cpp library whose result
depends on text: `GetNextDocument`, which parses the response into its first
document (`none` when there is no document), and `toInt`, the conversion of the
text of a scalar to an `int` (`none` when the text is not an integer). -/
structure Library where
  GetNextDocument : String → Except Failure (Option Node)
  toInt : String → Option Int

namespace Node

/-- The test `Type() == YAML::NodeType::Sequence`. -/
def isSequence : Node → Bool
  | Scalar _ => false
  | Sequence _ => true

/-- Modelled from the spec: `node[i]`: the element at position `i` of a sequence;
it throws when the node is not a sequence or has no such element. -/
def get : Node → Nat → Except Failure Node
  | Scalar _, _ => Except.error Failure.BadDereference
  | Sequence items, i =>
    match items.get? i with
    | some item => Except.ok item
    | none => Except.error Failure.KeyNotFound

/-- Modelled from the spec: `node.to<std::string>()`: the text of a scalar; it
throws on a node that is not a scalar. -/
def toStdString : Node → Except Failure String
  | Scalar text => Except.ok text
  | Sequence _ => Except.error Failure.InvalidScalar

/-- Modelled from the spec: `node.to<int>()`: the integer a scalar denotes; it
throws on a node that is not a scalar or whose text is not an integer. -/
def toInt (yaml : Library) : Node → Except Failure Int
  | Scalar text =>
    match yaml.toInt text with
    | some n => Except.ok n
    | none => Except.error Failure.InvalidScalar
  | Sequence _ => Except.error Failure.InvalidScalar

/-- Modelled from the spec: the elements that `begin()` to `end()` run through;
the node has to be a sequence. -/
def elements : Node → Except Failure (List Node)
  | Scalar _ => Except.error Failure.BadDereference
  | Sequence items => Except.ok items

end Node

end YAML

namespace ScIDE

open ScLanguage

/-- The row that `GenericLookupDialog::makeDialogItem` builds: the text of the
first item, the text of the second item (`displayPath`) and the data stored on
the first item under `PathRole`, `CharPosRole` and `IsClassRole`. -/
structure DialogItem where
  name : String
  displayPath : String
  path : String
  position : Int
  isClassItem : Bool
deriving DecidableEq, Repr

/-- A `QStandardItemModel`: the rows below its invisible root item, top first. -/
abbrev Model := List DialogItem

/-- The call `GenericLookupDialog::makeDialogItem`. -/
def makeDialogItem (name displayPath path : String) (position : Int) (isClassItem : Bool) :
    DialogItem :=
  { name := name, displayPath := displayPath, path := path, position := position,
    isClassItem := isClassItem }

/-- The order of `QStandardItem::operator<` on the first column: the display
texts compared by `QString::compare`. -/
def itemLessOrEqual (a b : DialogItem) : Prop :=
  QString.lessOrEqual a.name b.name

instance : DecidableRel itemLessOrEqual :=
  fun a b => inferInstanceAs (Decidable (QString.lessOrEqual a.name b.name))

/-- The call `QStandardItemModel::sort(0)`: the rows are put in ascending order of their
first column by a stable sort, so rows with equal text keep their order. -/
def sort (model : Model) : Model :=
  model.insertionSort itemLessOrEqual

/-- The state a dialog call can change: the text of `mQueryEdit`, the model set
on the view `mResult` (`none` for `NULL`), the flag `mIsPartialQuery`, the
messages passed to `MainWindow::showStatusMessage` (oldest first), the
documents opened through `Main::documentManager()->open`, and whether the dialog
was closed by `accept()` (`true`) or `reject()` (`false`). -/
structure LookupDialog where
  mQueryEdit : String
  mResult : Option Model
  mIsPartialQuery : Bool
  statusMessages : List String
  opened : List (String × Int)
  closed : Option Bool
deriving DecidableEq, Repr

/-- The call `MainWindow::instance()->showStatusMessage(message)`. -/
def showStatusMessage (d : LookupDialog) (message : String) : LookupDialog :=
  { d with statusMessages := d.statusMessages ++ [message] }

/-- The call `GenericLookupDialog::focusResults`: it resizes the header and moves the
focus and the current index of the view; none of it is part of the state. -/
def focusResults (d : LookupDialog) : LookupDialog :=
  d

/-- The rows a `foreach` over methods appends to the model. -/
def appendMethods (intro : Introspection) (methods : List Method) (model : Model) : Model :=
  methods.foldl
    (fun rows method =>
      rows ++ [makeDialogItem method.signature (intro.compactLibraryPath method.definition.path)
        method.definition.path method.definition.position false])
    model

/-- The loop `while (klass)` of `LookupDialog::modelForClass`, entered with a class
(the null pointer has returned before) and appending to the rows built so far:
one pass of the body, then `klass = klass->superClass` and the test of the loop. -/
def modelForClassLoop (intro : Introspection) : ScLanguage.Class → Model → Model
  | ScLanguage.Class.mk name definition metaClass methods superClass, model =>
      let model := model ++ [makeDialogItem name (intro.compactLibraryPath definition.path)
        definition.path definition.position true]
      let model := appendMethods intro metaClass.methods model
      let model := appendMethods intro methods model
      match superClass with
      | none => model
      | some klass => modelForClassLoop intro klass model

/-- The call `LookupDialog::modelForClass`. -/
def modelForClass (intro : Introspection) (className : String) : Option Model :=
  match intro.findClass className with
  | none => none
  | some klass => some (modelForClassLoop intro klass [])

/-- The call `LookupDialog::modelForMethod`. -/
def modelForMethod (intro : Introspection) (methodName : String) : Option Model :=
  let matchingMethods := equal_range intro.methodMap methodName
  if matchingMethods = [] then none
  else some (sort (appendMethods intro matchingMethods []))

/-- The rows the loop over `classes` of `LookupDialog::modelForPartialQuery`
appends to the model. -/
def appendClasses (intro : Introspection) (classes : List ScLanguage.Class) (model : Model) :
    Model :=
  classes.foldl
    (fun rows klass =>
      rows ++ [makeDialogItem klass.name (intro.compactLibraryPath klass.definition.path)
        klass.definition.path klass.definition.position true])
    model

/-- The call `LookupDialog::modelForPartialQuery`. -/
def modelForPartialQuery (intro : Introspection) (d : LookupDialog) (queryString : String) :
    Option Model × LookupDialog :=
  let classes := intro.findClassPartial queryString
  let methods := intro.findMethodPartial queryString
  if classes.isEmpty && methods.isEmpty then
    (none, showStatusMessage d "No result for query")
  else
    let d := { d with mIsPartialQuery := true }
    let model := appendMethods intro methods []
    let model := appendClasses intro classes model
    (some (sort model), d)

/-- The call `LookupDialog::performClassQuery`. -/
def performClassQuery (intro : Introspection) (d : LookupDialog) (className : String) :
    Bool × LookupDialog :=
  let model := modelForClass intro className
  (model.isSome, { d with mResult := model })

/-- The call `LookupDialog::performMethodQuery`. -/
def performMethodQuery (intro : Introspection) (d : LookupDialog) (methodName : String) :
    Bool × LookupDialog :=
  let model := modelForMethod intro methodName
  (model.isSome, { d with mResult := model })

/-- The call `LookupDialog::performPartialQuery`. -/
def performPartialQuery (intro : Introspection) (d : LookupDialog) (queryString : String) :
    Bool × LookupDialog :=
  let result := modelForPartialQuery intro d queryString
  (result.1.isSome, { result.2 with mResult := result.1 })

/-- The end of `LookupDialog::performQuery`, reached when the exact query had no
success. -/
def performQueryFallback (intro : Introspection) (d : LookupDialog) (queryString : String) :
    LookupDialog :=
  let result := performPartialQuery intro d queryString
  if result.1 then focusResults result.2 else result.2

/-- The call `LookupDialog::performQuery`.  `isUpper` is `QChar::isUpper` on a code unit. -/
def performQuery (isUpper : Nat → Bool) (intro : Introspection) (d : LookupDialog) :
    LookupDialog :=
  let queryString := d.mQueryEdit
  if queryString = "" then
    { d with mResult := none }
  else if !intro.introspectionAvailable then
    showStatusMessage d "Introspection data not yet available"
  else
    let d := { d with mIsPartialQuery := false }
    if isUpper (QString.first queryString) then
      let result := performClassQuery intro d queryString
      if result.1 then focusResults result.2
      else performQueryFallback intro result.2 queryString
    else
      let result := performMethodQuery intro d queryString
      if result.1 then focusResults result.2
      else performQueryFallback intro result.2 queryString

/-- The call `GenericLookupDialog::onAccepted` for the row `currentIndex` of the view.  The
result is `none` when no model is set, where the code calls `itemFromIndex` through
a null pointer. -/
def GenericLookupDialog.onAccepted (d : LookupDialog) (currentIndex : Nat) :
    Option LookupDialog :=
  match d.mResult with
  | none => none
  | some model =>
    match model.get? currentIndex with
    | none => some { d with closed := some false }
    | some currentItem =>
      some { d with opened := d.opened ++ [(currentItem.path, currentItem.position)],
                    closed := some true }

/-- The call `LookupDialog::onAccepted` for the row `currentIndex` of the view. -/
def LookupDialog.onAccepted (isUpper : Nat → Bool) (intro : Introspection) (d : LookupDialog)
    (currentIndex : Nat) : Option LookupDialog :=
  if !d.mIsPartialQuery then
    GenericLookupDialog.onAccepted d currentIndex
  else
    match d.mResult with
    | none => none
    | some model =>
      match model.get? currentIndex with
      | none => some { d with closed := some false }
      | some currentItem =>
        if !currentItem.isClassItem then
          GenericLookupDialog.onAccepted d currentIndex
        else
          some (performQuery isUpper intro { d with mQueryEdit := currentItem.name })

/-- A dialog in which the user has typed `query`: no model is set, the flag is the
one the constructor gives, nothing has been shown or opened. -/
def LookupDialog.typed (query : String) : LookupDialog :=
  { mQueryEdit := query, mResult := none, mIsPartialQuery := false, statusMessages := [],
    opened := [], closed := none }

/-- What a caller of a resolution sees: a list of rows with the partial flag, no
result, or the index not being ready. -/
inductive ResolutionOutcome where
  | Results (entries : Model) (wasPartial : Bool)
  | Empty
  | IndexNotReady
deriving DecidableEq, Repr

/-- The outcome read off a dialog after a query: the index was not ready when the
status line says so; otherwise the model of the view and the flag
`mIsPartialQuery`. -/
def outcome (d : LookupDialog) : ResolutionOutcome :=
  if "Introspection data not yet available" ∈ d.statusMessages then
    ResolutionOutcome.IndexNotReady
  else
    match d.mResult with
    | none => ResolutionOutcome.Empty
    | some model => ResolutionOutcome.Results model d.mIsPartialQuery

/-- The resolution of `query`: `performQuery` run on a dialog in which `query` was
typed, and its outcome. -/
def resolve (isUpper : Nat → Bool) (intro : Introspection) (query : String) :
    ResolutionOutcome :=
  outcome (performQuery isUpper intro (LookupDialog.typed query))

/-- The partial stage alone: `performPartialQuery` run on a dialog in which `query`
was typed, and its outcome. -/
def resolvePartial (intro : Introspection) (query : String) : ResolutionOutcome :=
  outcome (performPartialQuery intro (LookupDialog.typed query) query).2

/-- The body of the loop of `ReferencesDialog::parse`: the row built from one
reference record. -/
def referenceItem (yaml : YAML.Library) (intro : Introspection) (reference : YAML.Node) :
    Except YAML.Failure DialogItem := do
  let className ← (← reference.get 0).toStdString
  let methodName ← (← reference.get 1).toStdString
  let path ← (← reference.get 2).toStdString
  let charPos ← (← reference.get 3).toInt yaml
  let displayPath := intro.compactLibraryPath path
  let fullName := makeFullMethodName className methodName
  pure (makeDialogItem fullName displayPath path charPos false)

/-- The loop of `ReferencesDialog::parse` over the reference records, appending to
the rows built so far. -/
def appendReferences (yaml : YAML.Library) (intro : Introspection) :
    List YAML.Node → Model → Except YAML.Failure Model
  | [], model => pure model
  | reference :: rest, model => do
    let item ← referenceItem yaml intro reference
    appendReferences yaml intro rest (model ++ [item])

/-- The call `ReferencesDialog::parse`: the model or `NULL`, with the dialog state; a
failure when the YAML library or the assertion stops the function.  The symbol
read from `doc[0]` is not used after it has been read. -/
def parse (yaml : YAML.Library) (intro : Introspection) (d : LookupDialog)
    (responseData : String) : Except YAML.Failure (Option Model × LookupDialog) :=
  if !intro.introspectionAvailable then
    pure (none, showStatusMessage d "Introspection data not yet available")
  else do
    match ← yaml.GetNextDocument responseData with
    | none => pure (none, d)
    | some doc =>
      if !doc.isSequence then throw YAML.Failure.AssertionFailed
      let _symbol ← (← doc.get 0).toStdString
      let references ← doc.get 1
      let model ← appendReferences yaml intro (← references.elements) []
      pure (some model, d)

/-- The call `ReferencesDialog::onResposeFromLanguage`. -/
def onResposeFromLanguage (yaml : YAML.Library) (intro : Introspection) (d : LookupDialog)
    (responseData : String) : Except YAML.Failure LookupDialog := do
  let result ← parse yaml intro d responseData
  let d := { result.2 with mResult := result.1 }
  if result.1.isSome then pure (focusResults d) else pure d

/-- What a caller of the decoder sees: the rows of the references, a response
that could not be decoded, or the index not being ready. -/
inductive DecodeOutcome where
  | References (entries : Model)
  | Malformed
  | IndexNotReady
deriving DecidableEq, Repr

/-- The decoding of a response: `onResposeFromLanguage` run on a fresh dialog.  A
failure, or no model without the status line saying that the index is not ready,
is a malformed response. -/
def decode (yaml : YAML.Library) (intro : Introspection) (payload : String) : DecodeOutcome :=
  match onResposeFromLanguage yaml intro (LookupDialog.typed "") payload with
  | Except.error _ => DecodeOutcome.Malformed
  | Except.ok d =>
    if "Introspection data not yet available" ∈ d.statusMessages then
      DecodeOutcome.IndexNotReady
    else
      match d.mResult with
      | none => DecodeOutcome.Malformed
      | some model => DecodeOutcome.References model

/-! ## Vocabulary of the statements -/

/-- The row of a class: its name, the compact form of its path, its definition,
marked as a class. -/
def classItem (intro : Introspection) (klass : ScLanguage.Class) : DialogItem :=
  { name := klass.name, displayPath := intro.compactLibraryPath klass.definition.path,
    path := klass.definition.path, position := klass.definition.position, isClassItem := true }

/-- The row of a method: its signature, the compact form of its path, its
definition, not marked as a class. -/
def methodItem (intro : Introspection) (method : Method) : DialogItem :=
  { name := method.signature, displayPath := intro.compactLibraryPath method.definition.path,
    path := method.definition.path, position := method.definition.position,
    isClassItem := false }

/-- The superclass chain `C0, C1, ..., Cn` of `C0`, the root last. -/
def superclassChain : ScLanguage.Class → List ScLanguage.Class
  | ScLanguage.Class.mk n d m ms none => [ScLanguage.Class.mk n d m ms none]
  | ScLanguage.Class.mk n d m ms (some s) =>
      ScLanguage.Class.mk n d m ms (some s) :: superclassChain s

/-- The rows of one class of the chain: the class, the methods of its metaclass in
declared order, its instance methods in declared order. -/
def classListing (intro : Introspection) (klass : ScLanguage.Class) : Model :=
  [classItem intro klass] ++ klass.metaClass.methods.map (methodItem intro)
    ++ klass.methods.map (methodItem intro)

/-- The exact stage selected by the first character of the query finds nothing:
no class of that name when the character is upper-case, no method of that name
otherwise. -/
def exactStageFindsNothing (isUpper : Nat → Bool) (intro : Introspection) (query : String) :
    Bool :=
  if isUpper (QString.first query) then (intro.findClass query).isNone
  else (equal_range intro.methodMap query).isEmpty

/-- A reference record with fewer than 4 fields. -/
def shortRecord : YAML.Node → Bool
  | YAML.Node.Scalar _ => false
  | YAML.Node.Sequence fields => decide (fields.length < 4)

/-- A reference record whose fourth field is not an integer. -/
def nonIntegerOffset (yaml : YAML.Library) : YAML.Node → Bool
  | YAML.Node.Scalar _ => false
  | YAML.Node.Sequence fields =>
    match fields.get? 3 with
    | none => false
    | some (YAML.Node.Sequence _) => true
    | some (YAML.Node.Scalar text) => (yaml.toInt text).isNone

/-- A reference as the response lists it: class name, method name, path, and the
offset with the text that denotes it. -/
structure Reference where
  className : String
  methodName : String
  path : String
  offsetText : String
  offset : Int
deriving DecidableEq, Repr

/-- The record `[className, methodName, path, offset]` of a reference. -/
def Reference.record (r : Reference) : YAML.Node :=
  YAML.Node.Sequence [YAML.Node.Scalar r.className, YAML.Node.Scalar r.methodName,
    YAML.Node.Scalar r.path, YAML.Node.Scalar r.offsetText]

/-- The entry of a reference: the full name (class name, dot, method name, or the
bare method name when the class name is empty), the compact path, the path and
the offset as they came, not marked as a class. -/
def Reference.entry (intro : Introspection) (r : Reference) : DialogItem :=
  { name := if r.className = "" then r.methodName else r.className ++ "." ++ r.methodName,
    displayPath := intro.compactLibraryPath r.path,
    path := r.path, position := r.offset, isClassItem := false }

/-! ## A small index and a small response -/

/-- Upper-case test on the code units of the ASCII capital letters. -/
def isUpperLatin (unit : Nat) : Bool :=
  decide (65 ≤ unit) && decide (unit ≤ 90)

/-- Root class `A` with the instance method `baz`. -/
def classA : ScLanguage.Class :=
  ScLanguage.Class.mk "A" { path := "/lib/A.sc", position := 0 } { methods := [] }
    [{ signature := "baz", definition := { path := "/lib/A.sc", position := 40 } }] none

/-- Class `B` extends `A`, with the class method `bar` and the instance method `foo`. -/
def classB : ScLanguage.Class :=
  ScLanguage.Class.mk "B" { path := "/lib/B.sc", position := 0 }
    { methods := [{ signature := "bar", definition := { path := "/lib/B.sc", position := 10 } }] }
    [{ signature := "foo", definition := { path := "/lib/B.sc", position := 20 } }] (some classA)

/-- Root class `Player` without methods. -/
def classPlayer : ScLanguage.Class :=
  ScLanguage.Class.mk "Player" { path := "/lib/Player.sc", position := 0 } { methods := [] } [] none

/-- Root class whose name `lower` does not start with a capital letter; the index
does not rule such a name out. -/
def classLower : ScLanguage.Class :=
  ScLanguage.Class.mk "lower" { path := "/lib/lower.sc", position := 0 } { methods := [] } [] none

/-- Method `play` of a class `Y`. -/
def playOfY : Method :=
  { signature := "play", definition := { path := "/lib/Y.sc", position := 70 } }

/-- Method `play` of a class `X`. -/
def playOfX : Method :=
  { signature := "play", definition := { path := "/lib/X.sc", position := 50 } }

/-- Method `Bus` of a class `Z`: a method whose name is a class name as well. -/
def busOfZ : Method :=
  { signature := "Bus", definition := { path := "/lib/Z.sc", position := 5 } }

/-- An index over these classes and methods.  The fragment `pla` matches the
method `play` of `Y` and the class `Player`; the fragment `Bus` matches the
method `Bus`; the fragment `a` matches the class `A`; no other fragment matches
anything. -/
def exampleIndex : Introspection :=
  { introspectionAvailable := true
    findClass := fun name =>
      if name = "A" then some classA
      else if name = "B" then some classB
      else if name = "Player" then some classPlayer
      else if name = "lower" then some classLower
      else none
    methodMap := [("Bus", busOfZ), ("play", playOfY), ("play", playOfX)]
    findClassPartial := fun fragment =>
      if fragment = "pla" then [classPlayer] else if fragment = "a" then [classA] else []
    findMethodPartial := fun fragment =>
      if fragment = "pla" then [playOfY] else if fragment = "Bus" then [busOfZ] else []
    compactLibraryPath := fun path => "~" ++ path }

/-- The same index before introspection has run. -/
def unreadyIndex : Introspection :=
  { exampleIndex with introspectionAvailable := false }

/-- The references `X.foo` at offset 10 and a free `foo` at offset 20. -/
def exampleReferences : List Reference :=
  [{ className := "X", methodName := "foo", path := "/lib/x.sc", offsetText := "10", offset := 10 },
   { className := "", methodName := "foo", path := "/lib/y.sc", offsetText := "20", offset := 20 }]

/-- A YAML library that knows five responses and the integers `10` and `20`. -/
def exampleYaml : YAML.Library :=
  { GetNextDocument := fun responseData =>
      if responseData = "[foo, [[X, foo, /lib/x.sc, 10], [, foo, /lib/y.sc, 20]]]" then
        Except.ok (some (YAML.Node.Sequence
          [YAML.Node.Scalar "foo", YAML.Node.Sequence (exampleReferences.map Reference.record)]))
      else if responseData = "[foo, [[X, foo, /lib/x.sc, 10], [, foo, /lib/y.sc, 20]], extra]" then
        Except.ok (some (YAML.Node.Sequence
          [YAML.Node.Scalar "foo", YAML.Node.Sequence (exampleReferences.map Reference.record),
           YAML.Node.Scalar "extra"]))
      else if responseData = "[foo]" then
        Except.ok (some (YAML.Node.Sequence [YAML.Node.Scalar "foo"]))
      else if responseData = "[foo, [[X, foo, /lib/x.sc, 10], [Y, foo, /lib/y.sc]]]" then
        Except.ok (some (YAML.Node.Sequence
          [YAML.Node.Scalar "foo", YAML.Node.Sequence
            [YAML.Node.Sequence [YAML.Node.Scalar "X", YAML.Node.Scalar "foo",
               YAML.Node.Scalar "/lib/x.sc", YAML.Node.Scalar "10"],
             YAML.Node.Sequence [YAML.Node.Scalar "Y", YAML.Node.Scalar "foo",
               YAML.Node.Scalar "/lib/y.sc"]]]))
      else if responseData = "" then Except.ok none
      else Except.error YAML.Failure.ParserException
    toInt := fun text =>
      if text = "10" then some 10 else if text = "20" then some 20 else none }

end ScIDE

namespace ScIDE

open ScLanguage

/-! ## Rows appended by the loops -/

theorem appendMethods_eq (intro : Introspection) (methods : List Method) (model : Model) :
    appendMethods intro methods model = model ++ methods.map (methodItem intro) := by
  induction methods generalizing model with
  | nil => simp [appendMethods]
  | cons method rest ih =>
    have step := ih (model ++ [methodItem intro method])
    simp only [appendMethods, List.foldl_cons, methodItem, makeDialogItem] at step ⊢
    rw [step]
    simp [methodItem]

theorem appendClasses_eq (intro : Introspection) (classes : List ScLanguage.Class)
    (model : Model) :
    appendClasses intro classes model = model ++ classes.map (classItem intro) := by
  induction classes generalizing model with
  | nil => simp [appendClasses]
  | cons klass rest ih =>
    have step := ih (model ++ [classItem intro klass])
    simp only [appendClasses, List.foldl_cons, classItem, makeDialogItem] at step ⊢
    rw [step]
    simp [classItem]

theorem modelForClassLoop_eq (intro : Introspection) :
    ∀ (klass : ScLanguage.Class) (model : Model),
      modelForClassLoop intro klass model
        = model ++ (superclassChain klass).flatMap (classListing intro)
  | ScLanguage.Class.mk n d m ms none, model => by
    simp [modelForClassLoop, superclassChain, classListing, appendMethods_eq, classItem,
      makeDialogItem, Class.name, Class.definition, Class.metaClass, Class.methods]
  | ScLanguage.Class.mk n d m ms (some s), model => by
    rw [modelForClassLoop]
    simp only [appendMethods_eq]
    rw [modelForClassLoop_eq intro s]
    simp [superclassChain, classListing, classItem, makeDialogItem, Class.name,
      Class.definition, Class.metaClass, Class.methods]

/-! ## The sort of the model -/

theorem itemLessOrEqual_total : IsTotal DialogItem itemLessOrEqual :=
  ⟨fun a b => le_total (QString.unicode a.name) (QString.unicode b.name)⟩

theorem itemLessOrEqual_trans : IsTrans DialogItem itemLessOrEqual :=
  ⟨fun a b c => @le_trans _ _ (QString.unicode a.name) (QString.unicode b.name)
    (QString.unicode c.name)⟩

theorem sort_perm (model : Model) : (sort model).Perm model :=
  List.perm_insertionSort itemLessOrEqual model

theorem sort_sorted (model : Model) :
    (sort model).Sorted (fun a b => QString.lessOrEqual a.name b.name) :=
  @List.sorted_insertionSort _ itemLessOrEqual _ itemLessOrEqual_total itemLessOrEqual_trans
    model

theorem sort_eq_nil (model : Model) : sort model = [] ↔ model = [] := by
  constructor
  · intro h
    have hp := sort_perm model
    rw [h] at hp
    exact List.nil_perm.mp hp
  · intro h
    subst h
    rfl

theorem modelForClassLoop_ne_nil (intro : Introspection) (klass : ScLanguage.Class) :
    modelForClassLoop intro klass [] ≠ [] := by
  rw [modelForClassLoop_eq]
  cases klass with
  | mk n d m ms s =>
    cases s <;> simp [superclassChain, classListing]

/-! ## Exact class resolution -/

/-- C1: on a ready index, a query whose first character is upper-case and for
which `findClass` returns the class `c0` resolves to a result that is not partial
and whose rows are, for each class of the superclass chain of `c0` in order (`c0`
first, the root last), the row of the class, then one row per method of its
metaclass in declared order, then one row per instance method in declared order;
nothing is sorted. -/
theorem resolve_exact_class (isUpper : Nat → Bool) (intro : Introspection) (query : String)
    (c0 : ScLanguage.Class) (hready : intro.introspectionAvailable = true)
    (hquery : query ≠ "") (hupper : isUpper (QString.first query) = true)
    (hfound : intro.findClass query = some c0) :
    resolve isUpper intro query
      = ResolutionOutcome.Results ((superclassChain c0).flatMap (classListing intro)) false := by
  simp [resolve, performQuery, LookupDialog.typed, hquery, hready, hupper, performClassQuery,
    modelForClass, hfound, focusResults, outcome, modelForClassLoop_eq]

/-- The example of C1: with `A` the root, `B` extending `A`, the instance method
`foo` and the class method `bar` on `B` and the instance method `baz` on `A`, the
query `B` lists `B`, `bar`, `foo`, `A`, `baz`. -/
theorem resolve_exact_class_witness :
    exampleIndex.introspectionAvailable = true
    ∧ isUpperLatin (QString.first "B") = true
    ∧ exampleIndex.findClass "B" = some classB
    ∧ resolve isUpperLatin exampleIndex "B"
        = ResolutionOutcome.Results
            ((superclassChain classB).flatMap (classListing exampleIndex)) false
    ∧ ((superclassChain classB).flatMap (classListing exampleIndex)).map DialogItem.name
        = ["B", "bar", "foo", "A", "baz"] :=
  ⟨rfl, by decide, by simp [exampleIndex],
    resolve_exact_class isUpperLatin exampleIndex "B" classB rfl (by decide) (by decide)
      (by simp [exampleIndex]),
    by decide⟩

/-! ## Exact method resolution -/

/-- C3: on a ready index, a non-empty query whose first character is not
upper-case and for which the method map has at least one method of that name
resolves to a result that is not partial, whose rows are a permutation of one
method row per method of that name (signature as display name, the definition as
location, not marked as a class) and are sorted ascending by signature under the
case-sensitive comparison of strings. -/
theorem resolve_exact_method (isUpper : Nat → Bool) (intro : Introspection) (query : String)
    (hready : intro.introspectionAvailable = true) (hquery : query ≠ "")
    (hlower : isUpper (QString.first query) = false)
    (hfound : equal_range intro.methodMap query ≠ []) :
    ∃ entries : Model,
      resolve isUpper intro query = ResolutionOutcome.Results entries false
      ∧ entries.Perm ((equal_range intro.methodMap query).map (methodItem intro))
      ∧ entries.Sorted (fun a b => QString.lessOrEqual a.name b.name) := by
  refine ⟨sort ((equal_range intro.methodMap query).map (methodItem intro)), ?_,
    sort_perm _, sort_sorted _⟩
  simp [resolve, performQuery, LookupDialog.typed, hquery, hready, hlower, performMethodQuery,
    modelForMethod, hfound, focusResults, outcome, appendMethods_eq]

/-- The example of C3: two methods `play`, on `Y` and on `X`; the query `play`
lists both. -/
theorem resolve_exact_method_witness :
    exampleIndex.introspectionAvailable = true
    ∧ isUpperLatin (QString.first "play") = false
    ∧ equal_range exampleIndex.methodMap "play" = [playOfY, playOfX]
    ∧ ∃ entries : Model,
        resolve isUpperLatin exampleIndex "play" = ResolutionOutcome.Results entries false
        ∧ entries.Perm ((equal_range exampleIndex.methodMap "play").map (methodItem exampleIndex))
        ∧ entries.Sorted (fun a b => QString.lessOrEqual a.name b.name) :=
  ⟨rfl, by decide, by decide,
    resolve_exact_method isUpperLatin exampleIndex "play" rfl (by decide) (by decide)
      (by decide)⟩

/-! ## Partial resolution -/

/-- C2: on a ready index, a non-empty query for which the exact stage selected by
the first character finds nothing, and for which `findMethodPartial` or
`findClassPartial` is not empty, resolves to a partial result whose rows are a
permutation of one method row per method of `findMethodPartial` followed by one
class row per class of `findClassPartial`, and are sorted ascending by display
name under the case-sensitive comparison of strings by code units. -/
theorem resolve_partial_stage (isUpper : Nat → Bool) (intro : Introspection) (query : String)
    (hready : intro.introspectionAvailable = true) (hquery : query ≠ "")
    (hexact : exactStageFindsNothing isUpper intro query = true)
    (hsome : intro.findMethodPartial query ≠ [] ∨ intro.findClassPartial query ≠ []) :
    ∃ entries : Model,
      resolve isUpper intro query = ResolutionOutcome.Results entries true
      ∧ entries.Perm ((intro.findMethodPartial query).map (methodItem intro)
          ++ (intro.findClassPartial query).map (classItem intro))
      ∧ entries.Sorted (fun a b => QString.lessOrEqual a.name b.name) := by
  refine ⟨sort ((intro.findMethodPartial query).map (methodItem intro)
    ++ (intro.findClassPartial query).map (classItem intro)), ?_, sort_perm _, sort_sorted _⟩
  have hempty : ((intro.findClassPartial query).isEmpty
      && (intro.findMethodPartial query).isEmpty) = false := by
    rcases hsome with h | h
    · simp [List.isEmpty_iff, h]
    · simp [List.isEmpty_iff, h]
  by_cases hupper : isUpper (QString.first query) = true
  · have hnone : intro.findClass query = none := by
      simpa [exactStageFindsNothing, hupper] using hexact
    simp [resolve, performQuery, LookupDialog.typed, hquery, hready, hupper, performClassQuery,
      modelForClass, hnone, performQueryFallback, performPartialQuery, modelForPartialQuery,
      hempty, focusResults, outcome, appendMethods_eq, appendClasses_eq]
  · have hnil : equal_range intro.methodMap query = [] := by
      simpa [exactStageFindsNothing, hupper] using hexact
    simp [resolve, performQuery, LookupDialog.typed, hquery, hready, hupper, performMethodQuery,
      modelForMethod, hnil, performQueryFallback, performPartialQuery, modelForPartialQuery,
      hempty, focusResults, outcome, appendMethods_eq, appendClasses_eq]

/-- The example of C2: the query `pla` is no method name, the fragment matches the
method `play` and the class `Player`, and the class row comes first. -/
theorem resolve_partial_stage_witness :
    exampleIndex.introspectionAvailable = true
    ∧ exactStageFindsNothing isUpperLatin exampleIndex "pla" = true
    ∧ (∃ entries : Model,
        resolve isUpperLatin exampleIndex "pla" = ResolutionOutcome.Results entries true
        ∧ entries.Perm ((exampleIndex.findMethodPartial "pla").map (methodItem exampleIndex)
            ++ (exampleIndex.findClassPartial "pla").map (classItem exampleIndex))
        ∧ entries.Sorted (fun a b => QString.lessOrEqual a.name b.name))
    ∧ resolve isUpperLatin exampleIndex "pla"
        = ResolutionOutcome.Results
            [classItem exampleIndex classPlayer, methodItem exampleIndex playOfY] true :=
  ⟨rfl, by decide,
    resolve_partial_stage isUpperLatin exampleIndex "pla" rfl (by decide) (by decide)
      (Or.inl (by decide)),
    by decide⟩

/-! ## The first attempt is exclusive -/

/-- C4: on a ready index and for a non-empty query, only the exact stage chosen by
the first character runs before the partial stage.  When the first character is
upper-case and `findClass` finds nothing, the outcome is the outcome of the
partial stage alone, whatever the method map holds for the query; when the first
character is not upper-case and the method map has no method of that name, the
outcome is the outcome of the partial stage alone, whatever `findClass` would
find. -/
theorem resolve_exclusive_first_attempt (isUpper : Nat → Bool) (intro : Introspection)
    (query : String) (hready : intro.introspectionAvailable = true) (hquery : query ≠ "") :
    (isUpper (QString.first query) = true → intro.findClass query = none →
      resolve isUpper intro query = resolvePartial intro query)
    ∧ (isUpper (QString.first query) = false → equal_range intro.methodMap query = [] →
      resolve isUpper intro query = resolvePartial intro query) := by
  constructor
  · intro hupper hnone
    simp [resolve, resolvePartial, performQuery, LookupDialog.typed, hquery, hready, hupper,
      performClassQuery, modelForClass, hnone, performQueryFallback, focusResults]
  · intro hlower hnil
    simp [resolve, resolvePartial, performQuery, LookupDialog.typed, hquery, hready, hlower,
      performMethodQuery, modelForMethod, hnil, performQueryFallback, focusResults]

/-- The examples of C4: `Bus` is a method name but no class name, and the outcome
is the partial one; `lower` is a class name but no method name, and the outcome is
the one of the partial stage, which finds nothing. -/
theorem resolve_exclusive_first_attempt_witness :
    (isUpperLatin (QString.first "Bus") = true ∧ exampleIndex.findClass "Bus" = none
      ∧ equal_range exampleIndex.methodMap "Bus" = [busOfZ]
      ∧ resolve isUpperLatin exampleIndex "Bus" = resolvePartial exampleIndex "Bus"
      ∧ resolvePartial exampleIndex "Bus"
          = ResolutionOutcome.Results [methodItem exampleIndex busOfZ] true)
    ∧ (isUpperLatin (QString.first "lower") = false
      ∧ equal_range exampleIndex.methodMap "lower" = []
      ∧ exampleIndex.findClass "lower" = some classLower
      ∧ resolve isUpperLatin exampleIndex "lower" = resolvePartial exampleIndex "lower"
      ∧ resolvePartial exampleIndex "lower" = ResolutionOutcome.Empty) :=
  ⟨⟨by decide, by simp [exampleIndex], by decide,
      (resolve_exclusive_first_attempt isUpperLatin exampleIndex "Bus" rfl (by decide)).1
        (by decide) (by simp [exampleIndex]),
      by decide⟩,
    ⟨by decide, by decide, by simp [exampleIndex],
      (resolve_exclusive_first_attempt isUpperLatin exampleIndex "lower" rfl (by decide)).2
        (by decide) (by decide),
      by decide⟩⟩

/-! ## No result -/

/-- C7: on a ready index and for a non-empty query, the outcome is `Empty` if and
only if the exact stage selected by the first character finds nothing and both
`findMethodPartial` and `findClassPartial` are empty; in every other case the
outcome is a result with at least one row, and a result never has zero rows. -/
theorem resolve_empty_iff (isUpper : Nat → Bool) (intro : Introspection) (query : String)
    (hready : intro.introspectionAvailable = true) (hquery : query ≠ "") :
    (resolve isUpper intro query = ResolutionOutcome.Empty ↔
      (exactStageFindsNothing isUpper intro query = true
        ∧ intro.findMethodPartial query = [] ∧ intro.findClassPartial query = []))
    ∧ (¬ (exactStageFindsNothing isUpper intro query = true
        ∧ intro.findMethodPartial query = [] ∧ intro.findClassPartial query = []) →
      ∃ (entries : Model) (wasPartial : Bool),
        resolve isUpper intro query = ResolutionOutcome.Results entries wasPartial
        ∧ entries ≠ [])
    ∧ ∀ wasPartial : Bool,
        resolve isUpper intro query ≠ ResolutionOutcome.Results [] wasPartial := by
  by_cases hupper : isUpper (QString.first query) = true
  · cases hclass : intro.findClass query with
    | some klass =>
      have hne := modelForClassLoop_ne_nil intro klass
      have hres : resolve isUpper intro query
          = ResolutionOutcome.Results (modelForClassLoop intro klass []) false := by
        simp [resolve, performQuery, LookupDialog.typed, hquery, hready, hupper,
          performClassQuery, modelForClass, hclass, focusResults, outcome]
      refine ⟨?_, ?_, ?_⟩
      · simp [hres, exactStageFindsNothing, hupper, hclass]
      · intro _
        exact ⟨_, _, hres, hne⟩
      · intro wasPartial h
        rw [hres] at h
        injection h with h1 _
        exact hne h1
    | none =>
      by_cases hempty : intro.findClassPartial query = [] ∧ intro.findMethodPartial query = []
      · have hres : resolve isUpper intro query = ResolutionOutcome.Empty := by
          simp [resolve, performQuery, LookupDialog.typed, hquery, hready, hupper,
            performClassQuery, modelForClass, hclass, performQueryFallback,
            performPartialQuery, modelForPartialQuery, hempty.1, hempty.2, focusResults,
            outcome, showStatusMessage]
        refine ⟨?_, ?_, ?_⟩
        · simp [hres, exactStageFindsNothing, hupper, hclass, hempty.1, hempty.2]
        · intro hnot
          exact absurd ⟨by simp [exactStageFindsNothing, hupper, hclass], hempty.2, hempty.1⟩
            hnot
        · intro wasPartial h
          rw [hres] at h
          cases h
      · have hflag : ((intro.findClassPartial query).isEmpty
            && (intro.findMethodPartial query).isEmpty) = false := by
          by_contra hc
          simp [List.isEmpty_iff] at hc
          exact hempty hc
        have hrows : (intro.findMethodPartial query).map (methodItem intro)
            ++ (intro.findClassPartial query).map (classItem intro) ≠ [] := by
          intro hc
          simp at hc
          exact hempty ⟨hc.2, hc.1⟩
        have hne : sort ((intro.findMethodPartial query).map (methodItem intro)
            ++ (intro.findClassPartial query).map (classItem intro)) ≠ [] :=
          fun hc => hrows ((sort_eq_nil _).mp hc)
        have hres : resolve isUpper intro query
            = ResolutionOutcome.Results
                (sort ((intro.findMethodPartial query).map (methodItem intro)
                  ++ (intro.findClassPartial query).map (classItem intro))) true := by
          simp [resolve, performQuery, LookupDialog.typed, hquery, hready, hupper,
            performClassQuery, modelForClass, hclass, performQueryFallback,
            performPartialQuery, modelForPartialQuery, hflag, focusResults, outcome,
            appendMethods_eq, appendClasses_eq]
        refine ⟨?_, ?_, ?_⟩
        · rw [hres]
          constructor
          · intro h
            cases h
          · intro h
            exact absurd ⟨h.2.2, h.2.1⟩ hempty
        · intro _
          exact ⟨_, _, hres, hne⟩
        · intro wasPartial h
          rw [hres] at h
          injection h with h1 _
          exact hne h1
  · cases hmethods : equal_range intro.methodMap query with
    | cons method rest =>
      have hrows : (method :: rest).map (methodItem intro) ≠ [] := by simp
      have hne : sort ((method :: rest).map (methodItem intro)) ≠ [] :=
        fun hc => hrows ((sort_eq_nil _).mp hc)
      have hres : resolve isUpper intro query
          = ResolutionOutcome.Results (sort ((method :: rest).map (methodItem intro))) false := by
        simp [resolve, performQuery, LookupDialog.typed, hquery, hready, hupper,
          performMethodQuery, modelForMethod, hmethods, focusResults, outcome,
          appendMethods_eq]
      refine ⟨?_, ?_, ?_⟩
      · rw [hres]
        constructor
        · intro h
          cases h
        · intro h
          simp [exactStageFindsNothing, hupper, hmethods] at h
      · intro _
        exact ⟨_, _, hres, hne⟩
      · intro wasPartial h
        rw [hres] at h
        injection h with h1 _
        exact hne h1
    | nil =>
      by_cases hempty : intro.findClassPartial query = [] ∧ intro.findMethodPartial query = []
      · have hres : resolve isUpper intro query = ResolutionOutcome.Empty := by
          simp [resolve, performQuery, LookupDialog.typed, hquery, hready, hupper,
            performMethodQuery, modelForMethod, hmethods, performQueryFallback,
            performPartialQuery, modelForPartialQuery, hempty.1, hempty.2, focusResults,
            outcome, showStatusMessage]
        refine ⟨?_, ?_, ?_⟩
        · simp [hres, exactStageFindsNothing, hupper, hmethods, hempty.1, hempty.2]
        · intro hnot
          exact absurd ⟨by simp [exactStageFindsNothing, hupper, hmethods], hempty.2,
            hempty.1⟩ hnot
        · intro wasPartial h
          rw [hres] at h
          cases h
      · have hflag : ((intro.findClassPartial query).isEmpty
            && (intro.findMethodPartial query).isEmpty) = false := by
          by_contra hc
          simp [List.isEmpty_iff] at hc
          exact hempty hc
        have hrows : (intro.findMethodPartial query).map (methodItem intro)
            ++ (intro.findClassPartial query).map (classItem intro) ≠ [] := by
          intro hc
          simp at hc
          exact hempty ⟨hc.2, hc.1⟩
        have hne : sort ((intro.findMethodPartial query).map (methodItem intro)
            ++ (intro.findClassPartial query).map (classItem intro)) ≠ [] :=
          fun hc => hrows ((sort_eq_nil _).mp hc)
        have hres : resolve isUpper intro query
            = ResolutionOutcome.Results
                (sort ((intro.findMethodPartial query).map (methodItem intro)
                  ++ (intro.findClassPartial query).map (classItem intro))) true := by
          simp [resolve, performQuery, LookupDialog.typed, hquery, hready, hupper,
            performMethodQuery, modelForMethod, hmethods, performQueryFallback,
            performPartialQuery, modelForPartialQuery, hflag, focusResults, outcome,
            appendMethods_eq, appendClasses_eq]
        refine ⟨?_, ?_, ?_⟩
        · rw [hres]
          constructor
          · intro h
            cases h
          · intro h
            exact absurd ⟨h.2.2, h.2.1⟩ hempty
        · intro _
          exact ⟨_, _, hres, hne⟩
        · intro wasPartial h
          rw [hres] at h
          injection h with h1 _
          exact hne h1

/-- The examples of C7: nothing matches `zzz`, and the outcome is `Empty`; the
fragment `pla` matches, and the outcome is a result with two rows. -/
theorem resolve_empty_iff_witness :
    (exactStageFindsNothing isUpperLatin exampleIndex "zzz" = true
      ∧ exampleIndex.findMethodPartial "zzz" = [] ∧ exampleIndex.findClassPartial "zzz" = [])
    ∧ resolve isUpperLatin exampleIndex "zzz" = ResolutionOutcome.Empty
    ∧ ¬ (exactStageFindsNothing isUpperLatin exampleIndex "pla" = true
      ∧ exampleIndex.findMethodPartial "pla" = [] ∧ exampleIndex.findClassPartial "pla" = [])
    ∧ ∃ (entries : Model) (wasPartial : Bool),
        resolve isUpperLatin exampleIndex "pla" = ResolutionOutcome.Results entries wasPartial
        ∧ entries ≠ [] :=
  have hzzz : exactStageFindsNothing isUpperLatin exampleIndex "zzz" = true
      ∧ exampleIndex.findMethodPartial "zzz" = [] ∧ exampleIndex.findClassPartial "zzz" = [] :=
    ⟨by decide, by decide, by simp [exampleIndex]⟩
  have hpla : ¬ (exactStageFindsNothing isUpperLatin exampleIndex "pla" = true
      ∧ exampleIndex.findMethodPartial "pla" = [] ∧ exampleIndex.findClassPartial "pla" = []) :=
    fun h => absurd h.2.1 (by decide)
  ⟨hzzz, (resolve_empty_iff isUpperLatin exampleIndex "zzz" rfl (by decide)).1.mpr hzzz, hpla,
    (resolve_empty_iff isUpperLatin exampleIndex "pla" rfl (by decide)).2.1 hpla⟩

/-! ## The guards of a query -/

/-- C8: the empty query has the outcome `Empty` on every index, ready or not.  On
an index that is not ready, a non-empty query has the outcome `IndexNotReady`, and
the query does nothing but show the status message: the dialog it leaves does not
depend on what the index holds. -/
theorem resolve_guards (isUpper : Nat → Bool) (intro : Introspection) (query : String) :
    resolve isUpper intro "" = ResolutionOutcome.Empty
    ∧ (query ≠ "" → intro.introspectionAvailable = false →
        resolve isUpper intro query = ResolutionOutcome.IndexNotReady
        ∧ (∀ d : LookupDialog, d.mQueryEdit = query →
            performQuery isUpper intro d
              = showStatusMessage d "Introspection data not yet available")
        ∧ (∀ other : Introspection, other.introspectionAvailable = false →
            resolve isUpper other query = resolve isUpper intro query)) := by
  constructor
  · simp [resolve, performQuery, LookupDialog.typed, outcome]
  · intro hquery hnot
    refine ⟨?_, ?_, ?_⟩
    · simp [resolve, performQuery, LookupDialog.typed, hquery, hnot, outcome, showStatusMessage]
    · intro d hd
      subst hd
      simp [performQuery, hquery, hnot]
    · intro other hother
      simp [resolve, performQuery, LookupDialog.typed, hquery, hnot, hother]

/-- The example of C8: on the index that is not ready, the query `B` has the
outcome `IndexNotReady`, although the index holds the class `B`. -/
theorem resolve_guards_witness :
    unreadyIndex.introspectionAvailable = false
    ∧ unreadyIndex.findClass "B" = some classB
    ∧ resolve isUpperLatin unreadyIndex "" = ResolutionOutcome.Empty
    ∧ resolve isUpperLatin unreadyIndex "B" = ResolutionOutcome.IndexNotReady :=
  ⟨rfl, by simp [unreadyIndex, exampleIndex],
    (resolve_guards isUpperLatin unreadyIndex "B").1,
    ((resolve_guards isUpperLatin unreadyIndex "B").2 (by decide) rfl).1⟩

/-! ## Accepting a class row of a partial result -/

theorem superclassChain_head (klass : ScLanguage.Class) :
    ∃ rest, superclassChain klass = klass :: rest := by
  cases klass with
  | mk n d m ms s =>
    cases s with
    | none => exact ⟨[], rfl⟩
    | some parent => exact ⟨superclassChain parent, rfl⟩

theorem resolve_of_findClass (isUpper : Nat → Bool) (intro : Introspection) (query : String)
    (klass : ScLanguage.Class) (hready : intro.introspectionAvailable = true)
    (hquery : query ≠ "") (hupper : isUpper (QString.first query) = true)
    (hfound : intro.findClass query = some klass) :
    ∃ rest, resolve isUpper intro query
      = ResolutionOutcome.Results (classItem intro klass :: rest) false := by
  obtain ⟨chain, hchain⟩ := superclassChain_head klass
  refine ⟨klass.metaClass.methods.map (methodItem intro)
    ++ klass.methods.map (methodItem intro) ++ chain.flatMap (classListing intro), ?_⟩
  simp [resolve, performQuery, LookupDialog.typed, hquery, hready, hupper, performClassQuery,
    modelForClass, hfound, focusResults, outcome, modelForClassLoop_eq, hchain, classListing]

theorem resolve_partial_rows (isUpper : Nat → Bool) (intro : Introspection) (query : String)
    (entries : Model)
    (hres0 : resolve isUpper intro query = ResolutionOutcome.Results entries true) :
    entries = sort ((intro.findMethodPartial query).map (methodItem intro)
      ++ (intro.findClassPartial query).map (classItem intro)) := by
  by_cases hquery : query = ""
  · subst hquery
    simp [resolve, performQuery, LookupDialog.typed, outcome] at hres0
  by_cases hready : intro.introspectionAvailable = true
  swap
  · simp [resolve, performQuery, LookupDialog.typed, hquery, hready, outcome,
      showStatusMessage] at hres0
  by_cases hflag : ((intro.findClassPartial query).isEmpty
      && (intro.findMethodPartial query).isEmpty) = true
  · by_cases hupper : isUpper (QString.first query) = true
    · cases hclass : intro.findClass query with
      | some klass =>
        simp [resolve, performQuery, LookupDialog.typed, hquery, hready, hupper,
          performClassQuery, modelForClass, hclass, focusResults, outcome] at hres0
      | none =>
        simp [resolve, performQuery, LookupDialog.typed, hquery, hready, hupper,
          performClassQuery, modelForClass, hclass, performQueryFallback, performPartialQuery,
          modelForPartialQuery, hflag, focusResults, outcome, showStatusMessage] at hres0
    · by_cases hmethods : equal_range intro.methodMap query = []
      · simp [resolve, performQuery, LookupDialog.typed, hquery, hready, hupper,
          performMethodQuery, modelForMethod, hmethods, performQueryFallback,
          performPartialQuery, modelForPartialQuery, hflag, focusResults, outcome,
          showStatusMessage] at hres0
      · simp [resolve, performQuery, LookupDialog.typed, hquery, hready, hupper,
          performMethodQuery, modelForMethod, hmethods, focusResults, outcome] at hres0
  · by_cases hupper : isUpper (QString.first query) = true
    · cases hclass : intro.findClass query with
      | some klass =>
        simp [resolve, performQuery, LookupDialog.typed, hquery, hready, hupper,
          performClassQuery, modelForClass, hclass, focusResults, outcome] at hres0
      | none =>
        simp [resolve, performQuery, LookupDialog.typed, hquery, hready, hupper,
          performClassQuery, modelForClass, hclass, performQueryFallback, performPartialQuery,
          modelForPartialQuery, hflag, focusResults, outcome, appendMethods_eq,
          appendClasses_eq] at hres0
        exact hres0.symm
    · by_cases hmethods : equal_range intro.methodMap query = []
      · simp [resolve, performQuery, LookupDialog.typed, hquery, hready, hupper,
          performMethodQuery, modelForMethod, hmethods, performQueryFallback,
          performPartialQuery, modelForPartialQuery, hflag, focusResults, outcome,
          appendMethods_eq, appendClasses_eq] at hres0
        exact hres0.symm
      · simp [resolve, performQuery, LookupDialog.typed, hquery, hready, hupper,
          performMethodQuery, modelForMethod, hmethods, focusResults, outcome] at hres0

theorem class_row_of_partial (intro : Introspection) (query : String) (e : DialogItem)
    (hmem : e ∈ sort ((intro.findMethodPartial query).map (methodItem intro)
      ++ (intro.findClassPartial query).map (classItem intro)))
    (hclass : e.isClassItem = true) :
    ∃ klass ∈ intro.findClassPartial query, e = classItem intro klass := by
  have hmem2 := (sort_perm _).mem_iff.mp hmem
  rcases List.mem_append.mp hmem2 with h | h
  · obtain ⟨method, _, hrow⟩ := List.mem_map.mp h
    rw [← hrow] at hclass
    simp [methodItem] at hclass
  · obtain ⟨klass, hk, hrow⟩ := List.mem_map.mp h
    exact ⟨klass, hk, hrow.symm⟩

theorem outcome_results_inv (d : LookupDialog) (entries : Model) (wasPartial : Bool)
    (h : outcome d = ResolutionOutcome.Results entries wasPartial) :
    "Introspection data not yet available" ∉ d.statusMessages
    ∧ d.mResult = some entries ∧ d.mIsPartialQuery = wasPartial := by
  unfold outcome at h
  by_cases hstatus : "Introspection data not yet available" ∈ d.statusMessages
  · simp [hstatus] at h
  · cases hmodel : d.mResult with
    | none => simp [hstatus, hmodel] at h
    | some model =>
      simp [hstatus, hmodel] at h
      exact ⟨hstatus, by rw [h.1], h.2⟩

theorem outcome_performQuery (isUpper : Nat → Bool) (intro : Introspection) (d : LookupDialog)
    (hready : intro.introspectionAvailable = true) (hquery : d.mQueryEdit ≠ "")
    (hstatus : "Introspection data not yet available" ∉ d.statusMessages) :
    outcome (performQuery isUpper intro d) = resolve isUpper intro d.mQueryEdit := by
  by_cases hflag : ((intro.findClassPartial d.mQueryEdit).isEmpty
      && (intro.findMethodPartial d.mQueryEdit).isEmpty) = true
  · by_cases hupper : isUpper (QString.first d.mQueryEdit) = true
    · cases hclass : intro.findClass d.mQueryEdit with
      | some klass =>
        simp [resolve, performQuery, LookupDialog.typed, hquery, hready, hupper,
          performClassQuery, modelForClass, hclass, focusResults, outcome, hstatus]
      | none =>
        simp [resolve, performQuery, LookupDialog.typed, hquery, hready, hupper,
          performClassQuery, modelForClass, hclass, performQueryFallback, performPartialQuery,
          modelForPartialQuery, hflag, focusResults, outcome, showStatusMessage, hstatus]
    · by_cases hmethods : equal_range intro.methodMap d.mQueryEdit = []
      · simp [resolve, performQuery, LookupDialog.typed, hquery, hready, hupper,
          performMethodQuery, modelForMethod, hmethods, performQueryFallback,
          performPartialQuery, modelForPartialQuery, hflag, focusResults, outcome,
          showStatusMessage, hstatus]
      · simp [resolve, performQuery, LookupDialog.typed, hquery, hready, hupper,
          performMethodQuery, modelForMethod, hmethods, focusResults, outcome, hstatus]
  · by_cases hupper : isUpper (QString.first d.mQueryEdit) = true
    · cases hclass : intro.findClass d.mQueryEdit with
      | some klass =>
        simp [resolve, performQuery, LookupDialog.typed, hquery, hready, hupper,
          performClassQuery, modelForClass, hclass, focusResults, outcome, hstatus]
      | none =>
        simp [resolve, performQuery, LookupDialog.typed, hquery, hready, hupper,
          performClassQuery, modelForClass, hclass, performQueryFallback, performPartialQuery,
          modelForPartialQuery, hflag, focusResults, outcome, hstatus]
    · by_cases hmethods : equal_range intro.methodMap d.mQueryEdit = []
      · simp [resolve, performQuery, LookupDialog.typed, hquery, hready, hupper,
          performMethodQuery, modelForMethod, hmethods, performQueryFallback,
          performPartialQuery, modelForPartialQuery, hflag, focusResults, outcome, hstatus]
      · simp [resolve, performQuery, LookupDialog.typed, hquery, hready, hupper,
          performMethodQuery, modelForMethod, hmethods, focusResults, outcome, hstatus]

/-- C10: on a ready index in which every class returned by `findClassPartial` is
returned by `findClass` for its own name and has a name that starts with an
upper-case character, take a query whose resolution is partial and a class row
`e` of that result.  Resolving the display name of `e` gives a result that is not
partial and whose first row is a class row with the display name, the path and
the offset of `e`.  That is what accepting the row does: `onAccepted` on the row
of `e` runs the query again with that name, and the dialog it leaves shows that
resolution. -/
theorem requery_of_partial_class_row (isUpper : Nat → Bool) (intro : Introspection)
    (query : String) (entries : Model) (e : DialogItem)
    (hready : intro.introspectionAvailable = true)
    (hfind : ∀ fragment, ∀ klass ∈ intro.findClassPartial fragment,
      intro.findClass klass.name = some klass)
    (hnames : ∀ fragment, ∀ klass ∈ intro.findClassPartial fragment,
      klass.name ≠ "" ∧ isUpper (QString.first klass.name) = true)
    (hres0 : resolve isUpper intro query = ResolutionOutcome.Results entries true)
    (hmem : e ∈ entries) (hclass : e.isClassItem = true) :
    (∃ (first : DialogItem) (rest : Model),
      resolve isUpper intro e.name = ResolutionOutcome.Results (first :: rest) false
      ∧ first.isClassItem = true ∧ first.name = e.name ∧ first.path = e.path
      ∧ first.position = e.position)
    ∧ (∀ currentIndex : Nat, entries.get? currentIndex = some e →
      ∃ after : LookupDialog,
        LookupDialog.onAccepted isUpper intro
            (performQuery isUpper intro (LookupDialog.typed query)) currentIndex = some after
        ∧ outcome after = resolve isUpper intro e.name) := by
  have hrows := resolve_partial_rows isUpper intro query entries hres0
  rw [hrows] at hmem
  obtain ⟨klass, hk, hrow⟩ := class_row_of_partial intro query e hmem hclass
  have hname : e.name = klass.name := by rw [hrow]; rfl
  have hn := hnames query klass hk
  obtain ⟨rest, hres⟩ := resolve_of_findClass isUpper intro klass.name klass hready hn.1 hn.2
    (hfind query klass hk)
  constructor
  · refine ⟨classItem intro klass, rest, ?_, rfl, ?_, ?_, ?_⟩
    · rw [hname]
      exact hres
    · rw [hrow]
    · rw [hrow]
    · rw [hrow]
  · intro currentIndex hget
    obtain ⟨hstatus, hmodel, hflag⟩ := outcome_results_inv _ entries true hres0
    refine ⟨performQuery isUpper intro
      { performQuery isUpper intro (LookupDialog.typed query) with mQueryEdit := e.name }, ?_, ?_⟩
    · have hget2 : entries[currentIndex]? = some e := by simpa using hget
      simp [LookupDialog.onAccepted, hflag, hmodel, hget2, hclass]
    · have hq : e.name ≠ "" := by rw [hname]; exact hn.1
      exact outcome_performQuery isUpper intro _ hready hq hstatus

/-- The example of C10: the query `pla` has a partial result with the class row of
`Player`; resolving `Player` lists the class `Player` first, and is not partial. -/
theorem requery_of_partial_class_row_witness :
    resolve isUpperLatin exampleIndex "pla"
        = ResolutionOutcome.Results
            [classItem exampleIndex classPlayer, methodItem exampleIndex playOfY] true
    ∧ (∃ (first : DialogItem) (rest : Model),
        resolve isUpperLatin exampleIndex "Player"
          = ResolutionOutcome.Results (first :: rest) false
        ∧ first.isClassItem = true ∧ first.name = "Player" ∧ first.path = "/lib/Player.sc"
        ∧ first.position = 0) :=
  have hfragment : ∀ fragment, ∀ klass ∈ exampleIndex.findClassPartial fragment,
      klass = classPlayer ∨ klass = classA := by
    intro fragment klass hk
    simp only [exampleIndex] at hk
    split at hk
    · exact Or.inl (List.mem_singleton.mp hk)
    · split at hk
      · exact Or.inr (List.mem_singleton.mp hk)
      · cases hk
  ⟨by decide,
    (requery_of_partial_class_row isUpperLatin exampleIndex "pla"
      [classItem exampleIndex classPlayer, methodItem exampleIndex playOfY]
      (classItem exampleIndex classPlayer) rfl
      (fun fragment klass hk => by
        rcases hfragment fragment klass hk with h | h <;> subst h <;>
          simp [exampleIndex, classPlayer, classA, Class.name])
      (fun fragment klass hk => by
        rcases hfragment fragment klass hk with h | h <;> subst h <;> exact ⟨by decide, by decide⟩)
      (by decide) (List.mem_cons_self _ _) rfl).1⟩

/-! ## Decoding a references response -/

theorem referenceItem_short (yaml : YAML.Library) (intro : Introspection) (r : YAML.Node)
    (h : shortRecord r = true) :
    ∃ failure, referenceItem yaml intro r = Except.error failure := by
  cases r with
  | Scalar text => simp [shortRecord] at h
  | Sequence fields =>
    rcases fields with _ | ⟨a, _ | ⟨b, _ | ⟨c, _ | ⟨d, rest⟩⟩⟩⟩
    · simp [referenceItem, bind, Except.bind, YAML.Node.get]
    · cases a <;> simp [referenceItem, bind, Except.bind, YAML.Node.get, YAML.Node.toStdString]
    · cases a <;> cases b <;>
        simp [referenceItem, bind, Except.bind, YAML.Node.get, YAML.Node.toStdString]
    · cases a <;> cases b <;> cases c <;>
        simp [referenceItem, bind, Except.bind, YAML.Node.get, YAML.Node.toStdString]
    · simp [shortRecord] at h
      omega

theorem referenceItem_nonInteger (yaml : YAML.Library) (intro : Introspection) (r : YAML.Node)
    (h : nonIntegerOffset yaml r = true) :
    ∃ failure, referenceItem yaml intro r = Except.error failure := by
  cases r with
  | Scalar text => simp [nonIntegerOffset] at h
  | Sequence fields =>
    rcases fields with _ | ⟨a, _ | ⟨b, _ | ⟨c, _ | ⟨d, rest⟩⟩⟩⟩
    · simp [nonIntegerOffset] at h
    · simp [nonIntegerOffset] at h
    · simp [nonIntegerOffset] at h
    · simp [nonIntegerOffset] at h
    · cases d with
      | Sequence items =>
        cases a <;> cases b <;> cases c <;>
          simp [referenceItem, bind, Except.bind, YAML.Node.get, YAML.Node.toStdString,
            YAML.Node.toInt]
      | Scalar text =>
        have hnone : yaml.toInt text = none := by
          simpa [nonIntegerOffset] using h
        cases a <;> cases b <;> cases c <;>
          simp [referenceItem, bind, Except.bind, YAML.Node.get, YAML.Node.toStdString,
            YAML.Node.toInt, hnone]

theorem appendReferences_error (yaml : YAML.Library) (intro : Introspection)
    (records : List YAML.Node)
    (h : ∃ r ∈ records, ∃ failure, referenceItem yaml intro r = Except.error failure) :
    ∀ model : Model, ∃ failure, appendReferences yaml intro records model = Except.error failure := by
  induction records with
  | nil =>
    obtain ⟨r, hr, _⟩ := h
    cases hr
  | cons record rest ih =>
    intro model
    cases hitem : referenceItem yaml intro record with
    | error failure =>
      exact ⟨failure, by simp [appendReferences, bind, Except.bind, hitem]⟩
    | ok item =>
      obtain ⟨r, hr, failure, hfail⟩ := h
      rcases List.mem_cons.mp hr with heq | hin
      · subst heq
        rw [hitem] at hfail
        cases hfail
      · obtain ⟨failure2, h2⟩ := ih ⟨r, hin, failure, hfail⟩ (model ++ [item])
        exact ⟨failure2, by simp [appendReferences, bind, Except.bind, hitem, h2]⟩

theorem referenceItem_record (yaml : YAML.Library) (intro : Introspection) (r : Reference)
    (h : yaml.toInt r.offsetText = some r.offset) :
    referenceItem yaml intro r.record = Except.ok (r.entry intro) := by
  simp [referenceItem, Reference.record, Reference.entry, bind, Except.bind, YAML.Node.get,
    YAML.Node.toStdString, YAML.Node.toInt, h, makeFullMethodName, makeDialogItem, pure,
    Except.pure]

theorem appendReferences_records (yaml : YAML.Library) (intro : Introspection)
    (refs : List Reference) (h : ∀ r ∈ refs, yaml.toInt r.offsetText = some r.offset) :
    ∀ model : Model,
      appendReferences yaml intro (refs.map Reference.record) model
        = Except.ok (model ++ refs.map (Reference.entry intro)) := by
  induction refs with
  | nil =>
    intro model
    simp [appendReferences, pure, Except.pure]
  | cons r rest ih =>
    intro model
    have hr := referenceItem_record yaml intro r (h r (List.mem_cons_self _ _))
    have hrest := ih (fun x hx => h x (List.mem_cons_of_mem _ hx)) (model ++ [r.entry intro])
    simp [appendReferences, bind, Except.bind, hr, hrest]

theorem parse_of_records (yaml : YAML.Library) (intro : Introspection) (d : LookupDialog)
    (payload symbol : String) (refs : List Reference) (extra : List YAML.Node)
    (hready : intro.introspectionAvailable = true)
    (hdoc : yaml.GetNextDocument payload = Except.ok (some (YAML.Node.Sequence
      (YAML.Node.Scalar symbol :: YAML.Node.Sequence (refs.map Reference.record) :: extra))))
    (hint : ∀ r ∈ refs, yaml.toInt r.offsetText = some r.offset) :
    parse yaml intro d payload = Except.ok (some (refs.map (Reference.entry intro)), d) := by
  have hrows := appendReferences_records yaml intro refs hint []
  simp only [List.nil_append] at hrows
  simp [parse, hready, hdoc, bind, Except.bind, YAML.Node.isSequence, YAML.Node.get,
    YAML.Node.toStdString, YAML.Node.elements, hrows, pure, Except.pure]

theorem decode_of_records (yaml : YAML.Library) (intro : Introspection)
    (payload symbol : String) (refs : List Reference) (extra : List YAML.Node)
    (hready : intro.introspectionAvailable = true)
    (hdoc : yaml.GetNextDocument payload = Except.ok (some (YAML.Node.Sequence
      (YAML.Node.Scalar symbol :: YAML.Node.Sequence (refs.map Reference.record) :: extra))))
    (hint : ∀ r ∈ refs, yaml.toInt r.offsetText = some r.offset) :
    decode yaml intro payload = DecodeOutcome.References (refs.map (Reference.entry intro)) := by
  have hparse := parse_of_records yaml intro (LookupDialog.typed "") payload symbol refs extra
    hready hdoc hint
  simp only [decode, onResposeFromLanguage, hparse, bind, Except.bind]
  simp [focusResults, pure, Except.pure, LookupDialog.typed]

theorem parse_malformed (yaml : YAML.Library) (intro : Introspection) (d : LookupDialog)
    (payload : String) (doc : YAML.Node)
    (hready : intro.introspectionAvailable = true)
    (hdoc : yaml.GetNextDocument payload = Except.ok (some doc))
    (hbad : (∀ a b rest, doc ≠ YAML.Node.Sequence (a :: b :: rest))
      ∨ ∃ symbol records rest,
          doc = YAML.Node.Sequence (symbol :: YAML.Node.Sequence records :: rest)
          ∧ ∃ r ∈ records, shortRecord r = true ∨ nonIntegerOffset yaml r = true) :
    ∃ failure, parse yaml intro d payload = Except.error failure := by
  rcases hbad with hshort | ⟨symbol, records, rest, hshape, r, hr, hrecord⟩
  · cases doc with
    | Scalar text =>
      exact ⟨YAML.Failure.AssertionFailed, by
        simp [parse, hready, hdoc, bind, Except.bind, YAML.Node.isSequence, throw, throwThe,
          MonadExceptOf.throw]⟩
    | Sequence items =>
      rcases items with _ | ⟨a, _ | ⟨b, rest⟩⟩
      · simp [parse, hready, hdoc, bind, Except.bind, YAML.Node.isSequence, YAML.Node.get, pure,
        Except.pure]
      · cases a <;>
          simp [parse, hready, hdoc, bind, Except.bind, YAML.Node.isSequence, YAML.Node.get,
            YAML.Node.toStdString, pure, Except.pure]
      · exact absurd rfl (hshort a b rest)
  · subst hshape
    have hitem : ∃ failure, referenceItem yaml intro r = Except.error failure := by
      rcases hrecord with h | h
      · exact referenceItem_short yaml intro r h
      · exact referenceItem_nonInteger yaml intro r h
    obtain ⟨failure, hfail⟩ := appendReferences_error yaml intro records ⟨r, hr, hitem⟩ []
    cases symbol <;>
      simp [parse, hready, hdoc, bind, Except.bind, YAML.Node.isSequence, YAML.Node.get,
        YAML.Node.toStdString, YAML.Node.elements, hfail, pure, Except.pure]

/-- C5: on a ready index, a response whose top level has no second element, or
in which at least one reference record has fewer than 4 fields or an offset that
is not an integer, wherever the record stands in the list, is decoded as
`Malformed`, which carries no entry; the call fails as a whole and no model, full
or partial, is set on the view. -/
theorem decode_malformed (yaml : YAML.Library) (intro : Introspection) (payload : String)
    (doc : YAML.Node) (hready : intro.introspectionAvailable = true)
    (hdoc : yaml.GetNextDocument payload = Except.ok (some doc))
    (hbad : (∀ a b rest, doc ≠ YAML.Node.Sequence (a :: b :: rest))
      ∨ ∃ symbol records rest,
          doc = YAML.Node.Sequence (symbol :: YAML.Node.Sequence records :: rest)
          ∧ ∃ r ∈ records, shortRecord r = true ∨ nonIntegerOffset yaml r = true) :
    decode yaml intro payload = DecodeOutcome.Malformed
    ∧ ∀ d : LookupDialog, ∃ failure,
        onResposeFromLanguage yaml intro d payload = Except.error failure := by
  have hall : ∀ d : LookupDialog, ∃ failure,
      onResposeFromLanguage yaml intro d payload = Except.error failure := by
    intro d
    obtain ⟨failure, hfail⟩ := parse_malformed yaml intro d payload doc hready hdoc hbad
    exact ⟨failure, by simp [onResposeFromLanguage, hfail, bind, Except.bind]⟩
  refine ⟨?_, hall⟩
  obtain ⟨failure, hfail⟩ := hall (LookupDialog.typed "")
  simp [decode, hfail]

/-- The examples of C5: a response with the symbol alone, and a response whose
second record has three fields after a first record that is well formed. -/
theorem decode_malformed_witness :
    decode exampleYaml exampleIndex "[foo]" = DecodeOutcome.Malformed
    ∧ decode exampleYaml exampleIndex "[foo, [[X, foo, /lib/x.sc, 10], [Y, foo, /lib/y.sc]]]"
        = DecodeOutcome.Malformed :=
  ⟨(decode_malformed exampleYaml exampleIndex "[foo]"
      (YAML.Node.Sequence [YAML.Node.Scalar "foo"]) rfl (by simp [exampleYaml])
      (Or.inl (fun a b rest h => by cases h))).1,
    (decode_malformed exampleYaml exampleIndex
      "[foo, [[X, foo, /lib/x.sc, 10], [Y, foo, /lib/y.sc]]]"
      (YAML.Node.Sequence
        [YAML.Node.Scalar "foo", YAML.Node.Sequence
          [YAML.Node.Sequence [YAML.Node.Scalar "X", YAML.Node.Scalar "foo",
             YAML.Node.Scalar "/lib/x.sc", YAML.Node.Scalar "10"],
           YAML.Node.Sequence [YAML.Node.Scalar "Y", YAML.Node.Scalar "foo",
             YAML.Node.Scalar "/lib/y.sc"]]]) rfl (by simp [exampleYaml])
      (Or.inr ⟨_, _, _, rfl, _, List.mem_cons_of_mem _ (List.mem_cons_self _ _),
        Or.inl (by decide)⟩)).1⟩

/-- C6: on a ready index, a response `[symbol, [r1, ..., rn]]` in which each `ri` is
`[className, methodName, path, offset]` with an integer offset is decoded as
`References` with exactly one entry per record, in the order of the response and
without sorting; the entry of `ri` keeps the path and the offset as they came, has
the compact form of the path as display path, and has as full name the class
name, a dot and the method name, or the bare method name when the class name is
empty. -/
theorem decode_references (yaml : YAML.Library) (intro : Introspection)
    (payload symbol : String) (refs : List Reference)
    (hready : intro.introspectionAvailable = true)
    (hdoc : yaml.GetNextDocument payload = Except.ok (some (YAML.Node.Sequence
      [YAML.Node.Scalar symbol, YAML.Node.Sequence (refs.map Reference.record)])))
    (hint : ∀ r ∈ refs, yaml.toInt r.offsetText = some r.offset) :
    decode yaml intro payload = DecodeOutcome.References (refs.map (Reference.entry intro)) :=
  decode_of_records yaml intro payload symbol refs [] hready hdoc hint

/-- The example of C6: the references `X.foo` at 10 and a free `foo` at 20 are
decoded in that order, with the full names `X.foo` and `foo`. -/
theorem decode_references_witness :
    decode exampleYaml exampleIndex "[foo, [[X, foo, /lib/x.sc, 10], [, foo, /lib/y.sc, 20]]]"
        = DecodeOutcome.References (exampleReferences.map (Reference.entry exampleIndex))
    ∧ exampleReferences.map (Reference.entry exampleIndex)
        = [{ name := "X.foo", displayPath := "~/lib/x.sc", path := "/lib/x.sc", position := 10,
             isClassItem := false },
           { name := "foo", displayPath := "~/lib/y.sc", path := "/lib/y.sc", position := 20,
             isClassItem := false }] :=
  ⟨decode_references exampleYaml exampleIndex
      "[foo, [[X, foo, /lib/x.sc, 10], [, foo, /lib/y.sc, 20]]]" "foo" exampleReferences rfl
      (by simp [exampleYaml]) (by decide),
    by decide⟩

/-- C9, as the code has it: a response whose top level has more than two
elements, the first two being a symbol and a list of well-formed reference
records, is decoded as `References`, here with two entries. -/
theorem decode_three_elements_counterexample :
    exampleYaml.GetNextDocument "[foo, [[X, foo, /lib/x.sc, 10], [, foo, /lib/y.sc, 20]], extra]"
        = Except.ok (some (YAML.Node.Sequence
            [YAML.Node.Scalar "foo", YAML.Node.Sequence (exampleReferences.map Reference.record),
             YAML.Node.Scalar "extra"]))
    ∧ exampleIndex.introspectionAvailable = true
    ∧ decode exampleYaml exampleIndex
          "[foo, [[X, foo, /lib/x.sc, 10], [, foo, /lib/y.sc, 20]], extra]"
        = DecodeOutcome.References
            [{ name := "X.foo", displayPath := "~/lib/x.sc", path := "/lib/x.sc", position := 10,
               isClassItem := false },
             { name := "foo", displayPath := "~/lib/y.sc", path := "/lib/y.sc", position := 20,
               isClassItem := false }]
    ∧ decode exampleYaml exampleIndex
          "[foo, [[X, foo, /lib/x.sc, 10], [, foo, /lib/y.sc, 20]], extra]"
        ≠ DecodeOutcome.Malformed :=
  ⟨by simp [exampleYaml], rfl, by decide, by decide⟩

/-- C9, amended: on a ready index, the elements that follow the second element at
the top level are not read.  A response whose top level has more than two
elements is decoded as the response made of its first two elements is; when these
are a symbol and a list of reference records `[className, methodName, path,
offset]` with integer offsets, it is decoded as `References` with one entry per
record, in the order of the response. -/
theorem decode_ignores_extra_elements (yaml : YAML.Library) (intro : Introspection)
    (payload : String) (first second : YAML.Node) (extra : List YAML.Node)
    (hready : intro.introspectionAvailable = true)
    (hdoc : yaml.GetNextDocument payload
      = Except.ok (some (YAML.Node.Sequence (first :: second :: extra)))) :
    (∀ shorter : String,
      yaml.GetNextDocument shorter = Except.ok (some (YAML.Node.Sequence [first, second])) →
      decode yaml intro payload = decode yaml intro shorter)
    ∧ (∀ (symbol : String) (refs : List Reference),
      first = YAML.Node.Scalar symbol →
      second = YAML.Node.Sequence (refs.map Reference.record) →
      (∀ r ∈ refs, yaml.toInt r.offsetText = some r.offset) →
      decode yaml intro payload
        = DecodeOutcome.References (refs.map (Reference.entry intro))) := by
  constructor
  · intro shorter hshorter
    have hparse : parse yaml intro (LookupDialog.typed "") payload
        = parse yaml intro (LookupDialog.typed "") shorter := by
      simp [parse, hready, hdoc, hshorter, bind, Except.bind, YAML.Node.isSequence,
        YAML.Node.get]
    simp only [decode, onResposeFromLanguage, hparse]
  · intro symbol refs hfirst hsecond hint
    subst hfirst
    subst hsecond
    exact decode_of_records yaml intro payload symbol refs extra hready hdoc hint

/-- The example of C9 as amended: the response with the element `extra` after the
list of references is decoded as the response without it, to the two references. -/
theorem decode_ignores_extra_elements_witness :
    decode exampleYaml exampleIndex
        "[foo, [[X, foo, /lib/x.sc, 10], [, foo, /lib/y.sc, 20]], extra]"
      = decode exampleYaml exampleIndex
          "[foo, [[X, foo, /lib/x.sc, 10], [, foo, /lib/y.sc, 20]]]"
    ∧ decode exampleYaml exampleIndex
        "[foo, [[X, foo, /lib/x.sc, 10], [, foo, /lib/y.sc, 20]], extra]"
      = DecodeOutcome.References (exampleReferences.map (Reference.entry exampleIndex)) :=
  have h := decode_ignores_extra_elements exampleYaml exampleIndex
    "[foo, [[X, foo, /lib/x.sc, 10], [, foo, /lib/y.sc, 20]], extra]"
    (YAML.Node.Scalar "foo") (YAML.Node.Sequence (exampleReferences.map Reference.record))
    [YAML.Node.Scalar "extra"] rfl (by simp [exampleYaml])
  ⟨h.1 "[foo, [[X, foo, /lib/x.sc, 10], [, foo, /lib/y.sc, 20]]]" (by simp [exampleYaml]),
    h.2 "foo" exampleReferences rfl rfl (by decide)⟩

end ScIDE
